import Mathlib

/-!
Verification of the "Bricks" linear-program model generator
(`src/PuLP/BricksLinear.ipynb`).

The notebook builds a 0/1 integer program over a 4-dimensional binary
variable tensor `v[x][y][brick][rb]`, with

  * an objective `Σ penalties[(x,rb)] * v[x][y][b][rb]` (cell-16),
  * occupancy constraints `Σ_{b,rb} v[x][y][b][rb] ≤ 1` per cell (cell-18),
  * placement constraints `Σ_{x,y,rb} v[x][y][b][rb] = 1` per brick (cell-20),
  * anchor-boundary constraints `Σ_{y,b} v[x][y][b][rb] = 0` for `x > rb`
    (cell-22),
  * colour-cohesion constraints
    `Σ_{x,y} v[x][y][b1][rb] - Σ_{x,y} v[x][y][b2][rb] = 0` per declared
    pair and `rb` (cell-25),

then solves it and prints the result grid (cell-30).  We embed the model
shallowly: an assignment is a function to `Nat`, each constraint family is
the predicate obtained by evaluating the very list comprehensions the
notebook builds, and the display loop is a pure string function.
-/

namespace Bricks

/-- A problem description: grid size, brick identifiers, same-colour pairs.
The notebook's concrete instance is `P0` below. -/
structure Problem where
  xsize : Nat
  ysize : Nat
  bricks : List String
  pairs : List (String × String)

/-- A (candidate) assignment of the decision-variable tensor
`v[x][y][brick][rb]`; PuLP's solved variables are integers in `{0,1}`,
modelled as `Nat` values bounded by `1` via `Feasible.binary` below. -/
def Asgn : Type := Nat → Nat → String → Nat → Nat

/-- Cell-6: `positions = [(x,y) for x in range(XSIZE) for y in range(YSIZE)]`. -/
def Problem.positions (p : Problem) : List (Nat × Nat) :=
  (List.range p.xsize).flatMap (fun x => (List.range p.ysize).map (fun y => (x, y)))

/-- Cell-14 penalty dict: `penalties[(x, rb)] = 10 * abs(rb - x)` for
`x, rb` in `range(XSIZE)`, as an association list in insertion order. -/
def penEntries (n : Nat) : List ((Nat × Nat) × Int) :=
  (List.range n).flatMap
    (fun x => (List.range n).map (fun rb => ((x, rb), 10 * |(rb : Int) - (x : Int)|)))

/-- Dict access `penalties[(x, rb)]` (defaulting to `0` never happens for
in-range keys, see `penEntries_lookup`). -/
def penAt (n : Nat) (x rb : Nat) : Int :=
  (List.lookup (x, rb) (penEntries n)).getD 0

/-! ### Helper lemmas on list sums -/

/-- Sum of a `bind` is the sum of the inner sums. -/
theorem sum_bind {α β M : Type} [AddMonoid M] (l : List α) (f : α → List β) (g : β → M) :
    ((l.flatMap f).map g).sum = (l.map (fun a => ((f a).map g).sum)).sum := by
  induction l with
  | nil => rfl
  | cons a t ih => simp [List.flatMap_cons, List.map_append, List.sum_append, ih]

/-- Pointwise sums add up. -/
theorem sum_map_add {β M : Type} [AddCommMonoid M] (l : List β) (g h : β → M) :
    (l.map (fun b => g b + h b)).sum = (l.map g).sum + (l.map h).sum := by
  induction l with
  | nil => simp
  | cons a t ih => simp [ih, add_assoc, add_left_comm]

/-- Exchanging two nested list sums. -/
theorem sum_swap {α β M : Type} [AddCommMonoid M] (l1 : List α) (l2 : List β)
    (f : α → β → M) :
    (l1.map (fun a => ((l2.map (f a)).sum))).sum
      = (l2.map (fun b => ((l1.map (fun a => f a b)).sum))).sum := by
  induction l1 with
  | nil => simp
  | cons a t ih =>
      simp only [List.map_cons, List.sum_cons, ih]
      rw [← sum_map_add l2 (f a) (fun b => ((t.map (fun x => f x b)).sum))]

/-- Flattened sums group into inner sums. -/
theorem sum_flat {α M : Type} [AddMonoid M] (l : List α) (f : α → List M) :
    (l.flatMap f).sum = (l.map (fun a => (f a).sum)).sum := by
  induction l with
  | nil => rfl
  | cons a t ih => simp [List.flatMap_cons, List.sum_append, ih]

/-- A member of a list of naturals is at most the sum. -/
theorem mem_le_sum (l : List Nat) (a : Nat) (h : a ∈ l) : a ≤ l.sum := by
  induction l with
  | nil => cases h
  | cons x t ih =>
      rcases List.mem_cons.mp h with h1 | h2
      · simp [h1, List.sum_cons, Nat.le_add_right]
      · calc a ≤ t.sum := ih h2
          _ ≤ x + t.sum := Nat.le_add_left _ _

/-- A sum of naturals vanishes exactly when every member does. -/
theorem nat_sum_eq_zero_iff (l : List Nat) : l.sum = 0 ↔ ∀ a ∈ l, a = 0 := by
  induction l with
  | nil => simp
  | cons x t ih =>
      simp only [List.sum_cons, Nat.add_eq_zero, List.mem_cons, ih]
      constructor
      · rintro ⟨hx, ht⟩ a (rfl | ha)
        · exact hx
        · exact ht a ha
      · intro h
        exact ⟨h x (Or.inl rfl), fun a ha => h a (Or.inr ha)⟩

/-- Two distinct members contribute separately to a mapped sum. -/
theorem two_mem_le_sum {α : Type} (l : List α) (g : α → Nat)
    (b1 b2 : α) (hne : b1 ≠ b2) :
    b1 ∈ l → b2 ∈ l → g b1 + g b2 ≤ (l.map g).sum := by
  induction l with
  | nil => intro h1 _; cases h1
  | cons x t ih =>
      intro h1 h2
      rcases List.mem_cons.mp h1 with e1 | m1
      · rcases List.mem_cons.mp h2 with e2 | m2
        · exact absurd (e1.trans e2.symm) hne
        · rw [List.map_cons, List.sum_cons, e1]
          exact Nat.add_le_add_left (mem_le_sum _ _ (List.mem_map_of_mem g m2)) _
      · rcases List.mem_cons.mp h2 with e2 | m2
        · rw [List.map_cons, List.sum_cons, e2, Nat.add_comm (g b1) (g x)]
          exact Nat.add_le_add_left (mem_le_sum _ _ (List.mem_map_of_mem g m1)) _
        · rw [List.map_cons, List.sum_cons]
          calc g b1 + g b2 ≤ (t.map g).sum := ih m1 m2
            _ ≤ g x + (t.map g).sum := Nat.le_add_left _ _

/-- A mapped sum equal to one pins down a unique positive member. -/
theorem sum_eq_one_unique {α : Type} (l : List α) (g : α → Nat)
    (h : (l.map g).sum = 1) :
    ∃ a ∈ l, g a = 1 ∧ ∀ b ∈ l, b ≠ a → g b = 0 := by
  induction l with
  | nil => simp at h
  | cons x t ih =>
      simp only [List.map_cons, List.sum_cons] at h
      rcases Nat.eq_zero_or_pos (g x) with hx | hx
      · rw [hx, Nat.zero_add] at h
        obtain ⟨a, ha, hga, hrest⟩ := ih h
        refine ⟨a, List.mem_cons_of_mem _ ha, hga, ?_⟩
        intro b hb hbne
        rcases List.mem_cons.mp hb with rfl | hbt
        · exact hx
        · exact hrest b hbt hbne
      · have hx1 : g x = 1 := by omega
        have ht : (t.map g).sum = 0 := by omega
        refine ⟨x, List.mem_cons_self _ _, hx1, ?_⟩
        intro b hb hbne
        rcases List.mem_cons.mp hb with rfl | hbt
        · exact absurd rfl hbne
        · exact (nat_sum_eq_zero_iff _).mp ht _ (List.mem_map_of_mem g hbt)

/-- Sums of pointwise negations. -/
theorem sum_map_neg {α : Type} (l : List α) (f : α → Int) :
    (l.map (fun a => -(f a))).sum = -((l.map f).sum) := by
  induction l with
  | nil => simp
  | cons x t ih => simp [ih, neg_add, add_comm]

/-- A `{0,1}`-bounded mapped sum counts the positive entries. -/
theorem sum_eq_count_pos {α : Type} (l : List α) (g : α → Nat)
    (h : ∀ a ∈ l, g a ≤ 1) :
    (l.map g).sum = (l.filter (fun a => decide (0 < g a))).length := by
  induction l with
  | nil => rfl
  | cons x t ih =>
      have hx := h x (List.mem_cons_self _ _)
      have ht := ih (fun a ha => h a (List.mem_cons_of_mem _ ha))
      rcases Nat.eq_zero_or_pos (g x) with h0 | hpos
      · simp [List.filter_cons, h0, ht]
      · have hx1 : g x = 1 := by omega
        simp [List.filter_cons, hpos, hx1, ht, Nat.add_comm]

/-! ### The constraint families of the built program (cells 16-25) -/

/-- The occupancy left-hand side for a cell (cell-18):
`lpSum([v[x][y][b][rb] for b in bricks for rb in range(XSIZE)])`. -/
def occSum (p : Problem) (v : Asgn) (x y : Nat) : Nat :=
  (p.bricks.flatMap (fun b => (List.range p.xsize).map (fun rb => v x y b rb))).sum

/-- The placement left-hand side for a brick (cell-20):
`lpSum([v[x][y][b][rb] for x, y in positions for rb in range(XSIZE)])`. -/
def placeSum (p : Problem) (v : Asgn) (b : String) : Nat :=
  ((p.positions).flatMap (fun xy => (List.range p.xsize).map (fun rb => v xy.1 xy.2 b rb))).sum

/-- The anchor-boundary left-hand side for a column pair (cell-22):
`lpSum([v[x][y][b][rb] for y in range(YSIZE) for b in bricks])`. -/
def boundSum (p : Problem) (v : Asgn) (x rb : Nat) : Nat :=
  ((List.range p.ysize).flatMap (fun y => p.bricks.map (fun b => v x y b rb))).sum

/-- The colour-cohesion left-hand side for a pair and anchor (cell-25):
`lpSum([v[x][y][b1][rb] for x,y in positions] + [-v[x][y][b2][rb] for x,y in positions])`. -/
def cohSum (p : Problem) (v : Asgn) (b1 b2 : String) (rb : Nat) : Int :=
  (((p.positions).map (fun xy => (v xy.1 xy.2 b1 rb : Int)))
    ++ ((p.positions).map (fun xy => -(v xy.1 xy.2 b2 rb : Int)))).sum

/-- A feasible assignment of the built program: the variable bounds
(cell-9, `lowBound = 0, upBound = 1, cat = LpInteger`) together with the
four constraint families exactly as accumulated onto `m`. -/
structure Feasible (p : Problem) (v : Asgn) : Prop where
  binary : ∀ x ∈ List.range p.xsize, ∀ y ∈ List.range p.ysize, ∀ b ∈ p.bricks,
    ∀ rb ∈ List.range p.xsize, v x y b rb ≤ 1
  occupancy : ∀ xy ∈ p.positions, occSum p v xy.1 xy.2 ≤ 1
  placement : ∀ b ∈ p.bricks, placeSum p v b = 1
  boundary : ∀ x ∈ List.range p.xsize, ∀ rb ∈ List.range p.xsize,
    x > rb → boundSum p v x rb = 0
  cohesion : ∀ bp ∈ p.pairs, ∀ rb ∈ List.range p.xsize, cohSum p v bp.1 bp.2 rb = 0

/-! ### Derived observables -/

/-- Total weight a brick puts on one cell, over all anchors. -/
def brickCellSum (p : Problem) (v : Asgn) (b : String) (x y : Nat) : Nat :=
  ((List.range p.xsize).map (fun rb => v x y b rb)).sum

/-- Total weight a brick puts on one anchor column, over all cells. -/
def anchorSum (p : Problem) (v : Asgn) (b : String) (rb : Nat) : Nat :=
  ((p.positions).map (fun xy => v xy.1 xy.2 b rb)).sum

/-- Brick `b` occupies cell `xy` (under some anchor). -/
def occupies (p : Problem) (v : Asgn) (b : String) (xy : Nat × Nat) : Prop :=
  ∃ rb ∈ List.range p.xsize, v xy.1 xy.2 b rb = 1

/-- The cells carrying at least one set variable. -/
def occupiedCells (p : Problem) (v : Asgn) : List (Nat × Nat) :=
  (p.positions).filter (fun xy => decide (0 < occSum p v xy.1 xy.2))

/-- Membership in the position list is exactly in-range coordinates. -/
theorem mem_positions (p : Problem) (xy : Nat × Nat) :
    xy ∈ p.positions ↔ xy.1 < p.xsize ∧ xy.2 < p.ysize := by
  cases xy with
  | mk x y =>
    simp [Problem.positions, List.mem_flatMap, List.mem_map, List.mem_range]


/-! ### Bridging lemmas between the raw constraint sums and the observables -/

/-- The occupancy sum groups by brick. -/
theorem occSum_eq (p : Problem) (v : Asgn) (x y : Nat) :
    occSum p v x y = (p.bricks.map (fun b => brickCellSum p v b x y)).sum :=
  sum_flat _ _

/-- The placement sum groups by cell. -/
theorem placeSum_eq_cells (p : Problem) (v : Asgn) (b : String) :
    placeSum p v b = ((p.positions).map (fun xy => brickCellSum p v b xy.1 xy.2)).sum :=
  sum_flat _ _

/-- The placement sum groups by anchor column. -/
theorem placeSum_eq_anchors (p : Problem) (v : Asgn) (b : String) :
    placeSum p v b = ((List.range p.xsize).map (fun rb => anchorSum p v b rb)).sum := by
  rw [placeSum_eq_cells]
  exact sum_swap (p.positions) (List.range p.xsize) (fun xy rb => v xy.1 xy.2 b rb)

/-- Sums of naturals cast to integers termwise. -/
theorem natCast_sum {α : Type} (l : List α) (f : α → Nat) :
    (((l.map f).sum : Nat) : Int) = (l.map (fun a => ((f a) : Int))).sum := by
  induction l with
  | nil => rfl
  | cons x t ih => simp [ih]

/-- The cohesion sum is the difference of the two anchor sums. -/
theorem cohSum_eq (p : Problem) (v : Asgn) (b1 b2 : String) (rb : Nat) :
    cohSum p v b1 b2 rb
      = (anchorSum p v b1 rb : Int) - (anchorSum p v b2 rb : Int) := by
  unfold cohSum anchorSum
  rw [List.sum_append, sum_map_neg, ← natCast_sum, ← natCast_sum]
  omega

/-- A positive sum of naturals has a positive member. -/
theorem exists_pos_of_sum_pos (l : List Nat) (h : 0 < l.sum) : ∃ a ∈ l, 0 < a := by
  by_contra hc
  push_neg at hc
  have h0 : l.sum = 0 :=
    (nat_sum_eq_zero_iff l).mpr (fun a ha => Nat.le_zero.mp (hc a ha))
  omega

/-- Occupation of a cell is positivity of the per-brick cell sum
(the reverse direction uses the variable bounds). -/
theorem occupies_iff_pos (p : Problem) (v : Asgn) (b : String) (xy : Nat × Nat)
    (hbin : ∀ rb ∈ List.range p.xsize, v xy.1 xy.2 b rb ≤ 1) :
    occupies p v b xy ↔ 0 < brickCellSum p v b xy.1 xy.2 := by
  constructor
  · rintro ⟨rb, hrb, h1⟩
    have hm : v xy.1 xy.2 b rb ∈ (List.range p.xsize).map (fun rb => v xy.1 xy.2 b rb) :=
      List.mem_map_of_mem _ hrb
    have := mem_le_sum _ _ hm
    unfold brickCellSum
    omega
  · intro hpos
    obtain ⟨a, ha, hapos⟩ := exists_pos_of_sum_pos _ hpos
    obtain ⟨rb, hrb, rfl⟩ := List.mem_map.mp ha
    have := hbin rb hrb
    exact ⟨rb, hrb, by omega⟩

/-! ### Claims C1-C3 -/

/-- C3: In every feasible assignment of the built program, for every brick,
cell `(x, y)` and anchor `rb` of the variable domain, `v[x][y][b][rb] = 1`
implies `x ≤ rb`: the anchor-boundary constraints of cell-22 forbid a
placed brick's actual column from exceeding its assigned anchor column. -/
theorem anchor_boundary_x_le_rb (p : Problem) (v : Asgn) (hf : Feasible p v) :
    ∀ x ∈ List.range p.xsize, ∀ y ∈ List.range p.ysize, ∀ b ∈ p.bricks,
      ∀ rb ∈ List.range p.xsize, v x y b rb = 1 → x ≤ rb := by
  intro x hx y hy b hb rb hrb h1
  by_contra hgt
  push_neg at hgt
  have hbd := hf.boundary x hx rb hrb (by omega)
  unfold boundSum at hbd
  have hmem : v x y b rb
      ∈ ((List.range p.ysize).flatMap (fun y => p.bricks.map (fun b => v x y b rb))) := by
    refine List.mem_flatMap.mpr ⟨y, hy, ?_⟩
    exact List.mem_map_of_mem _ hb
  have h0 := (nat_sum_eq_zero_iff _).mp hbd _ hmem
  omega

/-- C1: For every problem description with `len(bricks) ≤ XSIZE*YSIZE` and
every feasible assignment, the occupancy (cell-18) and placement (cell-20)
constraints make the brick-to-cell map well defined (each brick occupies a
unique cell), injective (no two distinct bricks share a cell), with image
of exactly `len(bricks)` occupied cells, and every other cell empty. -/
theorem occupancy_placement_bijection (p : Problem) (v : Asgn)
    (hcap : p.bricks.length ≤ p.xsize * p.ysize) (hf : Feasible p v) :
    (∀ b ∈ p.bricks, ∃! xy, xy ∈ p.positions ∧ occupies p v b xy) ∧
    (∀ b1 ∈ p.bricks, ∀ b2 ∈ p.bricks, ∀ xy ∈ p.positions, b1 ≠ b2 →
      occupies p v b1 xy → occupies p v b2 xy → False) ∧
    (occupiedCells p v).length = p.bricks.length ∧
    (∀ xy ∈ p.positions, xy ∉ occupiedCells p v →
      ∀ b ∈ p.bricks, ∀ rb ∈ List.range p.xsize, v xy.1 xy.2 b rb = 0) := by
  have hbinAt : ∀ xy ∈ p.positions, ∀ b ∈ p.bricks,
      ∀ rb ∈ List.range p.xsize, v xy.1 xy.2 b rb ≤ 1 := by
    intro xy hxy b hb rb hrb
    have hco := (mem_positions p xy).mp hxy
    exact hf.binary xy.1 (List.mem_range.mpr hco.1) xy.2 (List.mem_range.mpr hco.2) b hb rb hrb
  refine ⟨?_, ?_, ?_, ?_⟩
  · -- well-definedness: a unique cell per brick
    intro b hb
    have hp := hf.placement b hb
    rw [placeSum_eq_cells] at hp
    obtain ⟨xy0, hxy0, h1, hrest⟩ := sum_eq_one_unique _ _ hp
    have hocc0 : occupies p v b xy0 :=
      (occupies_iff_pos p v b xy0 (fun rb hrb => hbinAt xy0 hxy0 b hb rb hrb)).mpr (by omega)
    refine ⟨xy0, ⟨hxy0, hocc0⟩, ?_⟩
    rintro xy1 ⟨hxy1, hocc1⟩
    by_contra hne
    have h0 := hrest xy1 hxy1 hne
    have hpos : 0 < brickCellSum p v b xy1.1 xy1.2 :=
      (occupies_iff_pos p v b xy1 (fun rb hrb => hbinAt xy1 hxy1 b hb rb hrb)).mp hocc1
    omega
  · -- injectivity
    intro b1 hb1 b2 hb2 xy hxy hne ho1 ho2
    have hsum : brickCellSum p v b1 xy.1 xy.2 + brickCellSum p v b2 xy.1 xy.2
        ≤ occSum p v xy.1 xy.2 := by
      rw [occSum_eq]
      exact two_mem_le_sum p.bricks (fun b => brickCellSum p v b xy.1 xy.2) b1 b2 hne hb1 hb2
    have hocc := hf.occupancy xy hxy
    have hp1 : 0 < brickCellSum p v b1 xy.1 xy.2 :=
      (occupies_iff_pos p v b1 xy (fun rb hrb => hbinAt xy hxy b1 hb1 rb hrb)).mp ho1
    have hp2 : 0 < brickCellSum p v b2 xy.1 xy.2 :=
      (occupies_iff_pos p v b2 xy (fun rb hrb => hbinAt xy hxy b2 hb2 rb hrb)).mp ho2
    omega
  · -- cardinality of the image
    have hkey : ((p.positions).map (fun xy => occSum p v xy.1 xy.2)).sum
        = p.bricks.length := by
      calc ((p.positions).map (fun xy => occSum p v xy.1 xy.2)).sum
          = ((p.positions).map
              (fun xy => (p.bricks.map (fun b => brickCellSum p v b xy.1 xy.2)).sum)).sum := by
            simp only [occSum_eq]
        _ = (p.bricks.map
              (fun b => ((p.positions).map (fun xy => brickCellSum p v b xy.1 xy.2)).sum)).sum :=
            sum_swap (p.positions) p.bricks (fun xy b => brickCellSum p v b xy.1 xy.2)
        _ = (p.bricks.map (fun _ => 1)).sum := by
            apply congrArg List.sum
            apply List.map_congr_left
            intro b hb
            rw [← placeSum_eq_cells]
            exact hf.placement b hb
        _ = p.bricks.length := by simp
    have hcount := sum_eq_count_pos (p.positions)
      (fun xy => occSum p v xy.1 xy.2) hf.occupancy
    unfold occupiedCells
    rw [← hcount, hkey]
  · -- emptiness off the image
    intro xy hxy hnot b hb rb hrb
    have hz : occSum p v xy.1 xy.2 = 0 := by
      by_contra hnz
      exact hnot (List.mem_filter.mpr ⟨hxy, by simpa using Nat.pos_of_ne_zero hnz⟩)
    have hmem : v xy.1 xy.2 b rb
        ∈ p.bricks.flatMap (fun b => (List.range p.xsize).map (fun rb => v xy.1 xy.2 b rb)) :=
      List.mem_flatMap.mpr ⟨b, hb, List.mem_map_of_mem _ hrb⟩
    exact (nat_sum_eq_zero_iff _).mp hz _ hmem

/-- C2: For every declared same-colour pair `(b1, b2)` (with both ids
known), every feasible assignment assigns both bricks the same unique
anchor column: the pairwise cohesion constraints of cell-25 plus the
placement constraints of cell-20 force the unique `rb` with
`Σ_{x,y} v[x][y][b1][rb] = 1` and the one for `b2` to coincide. -/
theorem samecolor_pair_anchor_eq (p : Problem) (v : Asgn) (hf : Feasible p v)
    (bp : String × String) (hbp : bp ∈ p.pairs)
    (hb1 : bp.1 ∈ p.bricks) (hb2 : bp.2 ∈ p.bricks) :
    ∃ rb ∈ List.range p.xsize, anchorSum p v bp.1 rb = 1 ∧ anchorSum p v bp.2 rb = 1 ∧
      ∀ rb2 ∈ List.range p.xsize,
        (anchorSum p v bp.1 rb2 = 1 ∨ anchorSum p v bp.2 rb2 = 1) → rb2 = rb := by
  have hcoh : ∀ rb ∈ List.range p.xsize,
      anchorSum p v bp.1 rb = anchorSum p v bp.2 rb := by
    intro rb hrb
    have h := hf.cohesion bp hbp rb hrb
    rw [cohSum_eq] at h
    omega
  have hp1 : ((List.range p.xsize).map (fun rb => anchorSum p v bp.1 rb)).sum = 1 := by
    rw [← placeSum_eq_anchors]
    exact hf.placement bp.1 hb1
  obtain ⟨rb0, hrb0, h1, hrest⟩ := sum_eq_one_unique _ _ hp1
  refine ⟨rb0, hrb0, h1, ?_, ?_⟩
  · rw [← hcoh rb0 hrb0]
    exact h1
  · intro rb2 hrb2 hor
    by_contra hne
    have h0 := hrest rb2 hrb2 hne
    rcases hor with h | h
    · omega
    · rw [← hcoh rb2 hrb2] at h
      omega

/-! ### Concrete feasible inputs used by the witnesses -/

/-- A one-cell, one-brick problem. -/
def pW1 : Problem := ⟨1, 1, ["a"], []⟩

/-- The assignment placing brick `a` at `(0,0)` with anchor `0`. -/
def vW1 : Asgn := fun x y b rb =>
  if x = 0 ∧ y = 0 ∧ b = "a" ∧ rb = 0 then 1 else 0

/-- A one-column, two-row problem with one same-colour pair. -/
def pW2 : Problem := ⟨1, 2, ["a", "b"], [("a", "b")]⟩

/-- The assignment placing `a` at `(0,0)` and `b` at `(0,1)`, both with
anchor `0`. -/
def vW2 : Asgn := fun x y b rb =>
  if x = 0 ∧ y = 0 ∧ b = "a" ∧ rb = 0 then 1
  else if x = 0 ∧ y = 1 ∧ b = "b" ∧ rb = 0 then 1 else 0

/-- Witness for C1 at the concrete input `pW1`, `vW1`. -/
theorem occupancy_placement_bijection_witness :
    pW1.bricks.length ≤ pW1.xsize * pW1.ysize ∧
      (occupiedCells pW1 vW1).length = pW1.bricks.length :=
  ⟨by decide,
    (occupancy_placement_bijection pW1 vW1 (by decide)
      ⟨by decide, by decide, by decide, by decide, by decide⟩).2.2.1⟩

/-- Witness for C2 at the concrete input `pW2`, `vW2`. -/
theorem samecolor_pair_anchor_eq_witness :
    ∃ rb ∈ List.range pW2.xsize,
      anchorSum pW2 vW2 "a" rb = 1 ∧ anchorSum pW2 vW2 "b" rb = 1 ∧
      ∀ rb2 ∈ List.range pW2.xsize,
        (anchorSum pW2 vW2 "a" rb2 = 1 ∨ anchorSum pW2 vW2 "b" rb2 = 1) → rb2 = rb :=
  samecolor_pair_anchor_eq pW2 vW2
    ⟨by decide, by decide, by decide, by decide, by decide⟩
    ("a", "b") (by decide) (by decide) (by decide)

/-- Witness for C3 at the concrete input `pW1`, `vW1`. -/
theorem anchor_boundary_x_le_rb_witness :
    vW1 0 0 "a" 0 = 1 ∧ (0 : Nat) ≤ 0 :=
  ⟨by decide,
    anchor_boundary_x_le_rb pW1 vW1
      ⟨by decide, by decide, by decide, by decide, by decide⟩
      0 (by decide) 0 (by decide) "a" (by decide) 0 (by decide) (by decide)⟩

/-! ### The penalty dictionary (cell-14) -/

/-- Keys missing from the first block of an association list fall through. -/
theorem lookup_append_none {β : Type} (k : Nat × Nat) (l1 l2 : List ((Nat × Nat) × β))
    (h : List.lookup k l1 = none) :
    List.lookup k (l1 ++ l2) = List.lookup k l2 := by
  induction l1 with
  | nil => rfl
  | cons a t ih =>
      obtain ⟨ak, av⟩ := a
      rw [List.cons_append]
      rw [List.lookup_cons] at h ⊢
      cases hbeq : (k == ak) with
      | true => rw [hbeq] at h; exact Option.noConfusion h
      | false => rw [hbeq] at h; exact ih h

/-- Keys found in the first block of an association list win. -/
theorem lookup_append_some {β : Type} (k : Nat × Nat) (l1 l2 : List ((Nat × Nat) × β))
    (z : β) (h : List.lookup k l1 = some z) :
    List.lookup k (l1 ++ l2) = some z := by
  induction l1 with
  | nil => exact Option.noConfusion h
  | cons a t ih =>
      obtain ⟨ak, av⟩ := a
      rw [List.cons_append]
      rw [List.lookup_cons] at h ⊢
      cases hbeq : (k == ak) with
      | true => rw [hbeq] at h; exact h
      | false => rw [hbeq] at h; exact ih h

/-- A lookup in one dictionary row misses when the first component differs. -/
theorem lookup_row_miss (x0 x rb : Nat) (l : List Nat) (f : Nat → Nat → Int)
    (hne : x ≠ x0) :
    List.lookup (x, rb) (l.map (fun r => ((x0, r), f x0 r))) = none := by
  induction l with
  | nil => rfl
  | cons r t ih =>
      simp only [List.map_cons, List.lookup_cons]
      have hb : ((x, rb) == (x0, r)) = false := by
        simp [Prod.ext_iff, hne]
      simp [hb, ih]

/-- A lookup in one dictionary row hits its own first component. -/
theorem lookup_row_hit (x0 rb : Nat) (l : List Nat) (f : Nat → Nat → Int)
    (hm : rb ∈ l) :
    List.lookup (x0, rb) (l.map (fun r => ((x0, r), f x0 r))) = some (f x0 rb) := by
  induction l with
  | nil => cases hm
  | cons r t ih =>
      simp only [List.map_cons, List.lookup_cons]
      by_cases h : rb = r
      · subst h
        simp
      · have hb : ((x0, rb) == (x0, r)) = false := by simp [Prod.ext_iff, h]
        rcases List.mem_cons.mp hm with h1 | h2
        · exact absurd h1 h
        · simp [hb, ih h2]

/-- In-range lookups in a stack of dictionary rows find the row value. -/
theorem lookup_pen_rows (n x rb : Nat) (xs : List Nat) (hmem : x ∈ xs) (hrb : rb < n) :
    List.lookup (x, rb)
      (xs.flatMap
        (fun x0 => (List.range n).map (fun r => ((x0, r), 10 * |(r : Int) - (x0 : Int)|))))
      = some (10 * |(rb : Int) - (x : Int)|) := by
  induction xs with
  | nil => cases hmem
  | cons a t ih =>
      rw [List.flatMap_cons]
      by_cases h : x = a
      · subst h
        exact lookup_append_some _ _ _ _
          (lookup_row_hit x rb _ (fun x0 r => 10 * |(r : Int) - (x0 : Int)|)
            (List.mem_range.mpr hrb))
      · rw [lookup_append_none _ _ _
          (lookup_row_miss a x rb _ (fun x0 r => 10 * |(r : Int) - (x0 : Int)|) h)]
        exact ih (List.mem_of_ne_of_mem h hmem)

/-- In-range lookups in the penalty dictionary find `10 * |rb - x|`. -/
theorem penEntries_lookup (n x rb : Nat) (hx : x < n) (hrb : rb < n) :
    List.lookup (x, rb) (penEntries n) = some (10 * |(rb : Int) - (x : Int)|) :=
  lookup_pen_rows n x rb (List.range n) (List.mem_range.mpr hx) hrb

/-- In-range penalty access yields `10 * |rb - x|`. -/
theorem penAt_eq (n x rb : Nat) (hx : x < n) (hrb : rb < n) :
    penAt n x rb = 10 * |(rb : Int) - (x : Int)| := by
  unfold penAt
  rw [penEntries_lookup n x rb hx hrb]
  rfl

/-! ### The notebook's concrete data (cells 4, 6 and 25) -/

/-- Cell-6: `XSIZE = 4`. -/
def XSIZE : Nat := 4

/-- Cell-6: `YSIZE = 3`. -/
def YSIZE : Nat := 3

/-- Cell-4: the brick list. -/
def bricks : List String :=
  ["a1", "a2", "a3", "b1", "b2", "c1", "c2", "c3", "c4", "d1", "d2", "e1"]

/-- Cell-25: the declared same-colour pairs. -/
def pairs : List (String × String) :=
  [("a1", "a2"), ("a1", "a3"), ("a2", "a3"),
   ("b1", "b2"),
   ("c1", "c2"), ("c1", "c3"), ("c2", "c3"), ("c1", "c4"), ("c2", "c4"), ("c3", "c4"),
   ("d1", "d2")]

/-- The notebook's built problem instance. -/
def P0 : Problem := ⟨XSIZE, YSIZE, bricks, pairs⟩

/-- C6: For every `x` and `rb` in `0..XSIZE-1` the penalty dictionary of
cell-14 holds exactly `10 * |rb - x|`, is symmetric, and vanishes on the
diagonal. -/
theorem penalties_formula_symm_diag :
    ∀ x ∈ List.range XSIZE, ∀ rb ∈ List.range XSIZE,
      List.lookup (x, rb) (penEntries XSIZE)
          = some (10 * |((rb : Nat) : Int) - ((x : Nat) : Int)|) ∧
        penAt XSIZE x rb = penAt XSIZE rb x ∧
        penAt XSIZE x x = 0 := by
  decide

/-- Witness for C6 at `x = 1`, `rb = 3`. -/
theorem penalties_formula_symm_diag_witness :
    List.lookup (1, 3) (penEntries XSIZE)
        = some (10 * |((3 : Nat) : Int) - ((1 : Nat) : Int)|) ∧
      penAt XSIZE 1 3 = penAt XSIZE 3 1 ∧
      penAt XSIZE 1 1 = 0 :=
  penalties_formula_symm_diag 1 (by decide) 3 (by decide)

/-! ### The objective (cell-16) and the variable domain (cell-9) -/

/-- Cell-16: `lpSum([penalties[(x,rb)] * v[x][y][b][rb]
for x,y in positions for b in bricks for rb in range(XSIZE)])`. -/
def objective (p : Problem) (v : Asgn) : Int :=
  ((p.positions).flatMap (fun xy => p.bricks.flatMap (fun b =>
    (List.range p.xsize).map (fun rb =>
      penAt p.xsize xy.1 rb * (v xy.1 xy.2 b rb : Int))))).sum

/-- Cell-9: the index set of `LpVariable.dicts("bricks",
(range(XSIZE), range(YSIZE), bricks, range(XSIZE)), ...)`. -/
def varTuples (p : Problem) : List (Nat × Nat × String × Nat) :=
  (List.range p.xsize).flatMap (fun x => (List.range p.ysize).flatMap (fun y =>
    p.bricks.flatMap (fun b => (List.range p.xsize).map (fun rb => (x, y, b, rb)))))

/-- Modelled from the spec's words for comparison: "minimize
`Σ penalty(x, rb) * v[x,y,brick,rb]` over all tuples", with
`penalty(x, rb) = 10 * |rb - x|`, ranging over every `x` in `0..XSIZE-1`,
`y` in `0..YSIZE-1`, `brick` in `bricks`, `rb` in `0..XSIZE-1`. -/
def specObjective (p : Problem) (v : Asgn) : Int :=
  ((List.range p.xsize).map (fun (x : Nat) =>
    ((List.range p.ysize).map (fun (y : Nat) =>
      ((p.bricks).map (fun (b : String) =>
        ((List.range p.xsize).map (fun (rb : Nat) =>
          (10 * |(rb : Int) - (x : Int)|) * (v x y b rb : Int))).sum)).sum)).sum)).sum

/-- The built objective agrees with the spec formula on every assignment. -/
theorem objective_eq_specObjective (p : Problem) (v : Asgn) :
    objective p v = specObjective p v := by
  unfold objective specObjective
  rw [sum_flat]
  simp only [sum_flat]
  unfold Problem.positions
  rw [sum_bind]
  simp only [List.map_map]
  apply congrArg List.sum
  apply List.map_congr_left
  intro x hx
  apply congrArg List.sum
  apply List.map_congr_left
  intro y hy
  apply congrArg List.sum
  apply List.map_congr_left
  intro b hb
  apply congrArg List.sum
  apply List.map_congr_left
  intro rb hrb
  simp only [Function.comp]
  rw [penAt_eq p.xsize x rb (List.mem_range.mp hx) (List.mem_range.mp hrb)]

/-- Membership in the variable-domain index set is exactly in-range
coordinates plus a known brick id. -/
theorem mem_varTuples (p : Problem) (t : Nat × Nat × String × Nat) :
    t ∈ varTuples p ↔
      t.1 < p.xsize ∧ t.2.1 < p.ysize ∧ t.2.2.1 ∈ p.bricks ∧ t.2.2.2 < p.xsize := by
  obtain ⟨x, y, b, rb⟩ := t
  simp only [varTuples, List.mem_flatMap, List.mem_map, List.mem_range]
  constructor
  · rintro ⟨x1, hx1, y1, hy1, b1, hb1, rb1, hrb1, heq⟩
    simp only [Prod.mk.injEq] at heq
    obtain ⟨rfl, rfl, rfl, rfl⟩ := heq
    exact ⟨hx1, hy1, hb1, hrb1⟩
  · rintro ⟨hx, hy, hb, hrb⟩
    exact ⟨x, hx, y, hy, b, hb, rb, hrb, rfl⟩

/-- Flattening preserves `Nodup` when blocks are tagged by their origin. -/
theorem nodup_flatMap_of_proj {α β : Type} (l : List α) (g : α → List β) (pr : β → α)
    (hl : l.Nodup) (hinner : ∀ a ∈ l, (g a).Nodup)
    (hproj : ∀ a ∈ l, ∀ t ∈ g a, pr t = a) :
    (l.flatMap g).Nodup := by
  rw [List.nodup_flatMap]
  refine ⟨hinner, ?_⟩
  apply List.Pairwise.imp_of_mem ?_ hl
  intro a1 a2 h1 h2 hne t ht1 ht2
  exact hne ((hproj a1 h1 t ht1).symm.trans (hproj a2 h2 t ht2))

/-- For distinct brick ids the variable-domain index set has no
duplicate tuple. -/
theorem varTuples_nodup (p : Problem) (hb : p.bricks.Nodup) :
    (varTuples p).Nodup := by
  unfold varTuples
  apply nodup_flatMap_of_proj _ _ (fun t => t.1) (List.nodup_range _)
  · intro x _
    apply nodup_flatMap_of_proj _ _ (fun t => t.2.1) (List.nodup_range _)
    · intro y _
      apply nodup_flatMap_of_proj _ _ (fun t => t.2.2.1) hb
      · intro b _
        apply List.Nodup.map ?_ (List.nodup_range _)
        intro r1 r2 h
        simpa using h
      · intro b _ t ht
        obtain ⟨rb, _, rfl⟩ := List.mem_map.mp ht
        rfl
    · intro y _ t ht
      obtain ⟨b, _, ht2⟩ := List.mem_flatMap.mp ht
      obtain ⟨rb, _, rfl⟩ := List.mem_map.mp ht2
      rfl
  · intro x _ t ht
    obtain ⟨y, _, ht2⟩ := List.mem_flatMap.mp ht
    obtain ⟨b, _, ht3⟩ := List.mem_flatMap.mp ht2
    obtain ⟨rb, _, rfl⟩ := List.mem_map.mp ht3
    rfl

/-- The variable-domain index set has `|X| * |Y| * |bricks| * |X|` tuples. -/
theorem varTuples_length (p : Problem) :
    (varTuples p).length = p.xsize * p.ysize * p.bricks.length * p.xsize := by
  unfold varTuples
  simp [List.length_flatMap, Function.comp_def, List.map_const', List.sum_replicate,
    smul_eq_mul, Nat.mul_assoc]

/-- C7: The built program's objective is exactly
`minimize Σ penalty(x, rb) * v[x][y][brick][rb]` over every in-range tuple
with no other terms, and the variable domain indexes one boolean variable
per `(x, y, brick, rb)` tuple, `XSIZE*YSIZE*len(bricks)*XSIZE` in total. -/
theorem objective_and_variable_domain (p : Problem) (v : Asgn) (hb : p.bricks.Nodup) :
    objective p v = specObjective p v ∧
    (varTuples p).length = p.xsize * p.ysize * p.bricks.length * p.xsize ∧
    (varTuples p).Nodup ∧
    (∀ t : Nat × Nat × String × Nat, t ∈ varTuples p ↔
      t.1 < p.xsize ∧ t.2.1 < p.ysize ∧ t.2.2.1 ∈ p.bricks ∧ t.2.2.2 < p.xsize) :=
  ⟨objective_eq_specObjective p v, varTuples_length p, varTuples_nodup p hb,
    mem_varTuples p⟩

/-- Witness for C7 at the notebook instance `P0`. -/
theorem objective_and_variable_domain_witness :
    P0.bricks.Nodup ∧
      (varTuples P0).length = P0.xsize * P0.ysize * P0.bricks.length * P0.xsize :=
  ⟨by decide, (objective_and_variable_domain P0 (fun _ _ _ _ => 0) (by decide)).2.1⟩

/-! ### Claim C10: sign, granularity and zero set of the objective -/

/-- A sum of nonnegative integers is nonnegative. -/
theorem int_sum_nonneg (l : List Int) (h : ∀ a ∈ l, 0 ≤ a) : 0 ≤ l.sum := by
  induction l with
  | nil => simp
  | cons x t ih =>
      have hx := h x (List.mem_cons_self _ _)
      have ht := ih (fun a ha => h a (List.mem_cons_of_mem _ ha))
      simp only [List.sum_cons]
      omega

/-- A common divisor of all members divides the sum. -/
theorem int_dvd_sum (d : Int) (l : List Int) (h : ∀ a ∈ l, d ∣ a) : d ∣ l.sum := by
  induction l with
  | nil => simp
  | cons x t ih =>
      have hx := h x (List.mem_cons_self _ _)
      have ht := ih (fun a ha => h a (List.mem_cons_of_mem _ ha))
      simp only [List.sum_cons]
      exact dvd_add hx ht

/-- A sum of nonnegative integers vanishes exactly when every member does. -/
theorem int_sum_eq_zero_iff (l : List Int) (h : ∀ a ∈ l, 0 ≤ a) :
    l.sum = 0 ↔ ∀ a ∈ l, a = 0 := by
  induction l with
  | nil => simp
  | cons x t ih =>
      have hx := h x (List.mem_cons_self _ _)
      have ht : 0 ≤ t.sum := int_sum_nonneg t (fun a ha => h a (List.mem_cons_of_mem _ ha))
      have hiff := ih (fun a ha => h a (List.mem_cons_of_mem _ ha))
      simp only [List.sum_cons, List.mem_cons]
      constructor
      · intro h0
        have hx0 : x = 0 := by omega
        have ht0 : t.sum = 0 := by omega
        intro a ha
        rcases ha with rfl | ha
        · exact hx0
        · exact hiff.mp ht0 a ha
      · intro hall
        have hx0 : x = 0 := hall x (Or.inl rfl)
        have ht0 : t.sum = 0 := hiff.mpr (fun a ha => hall a (Or.inr ha))
        omega

/-- Every term of the built objective comes from an in-range tuple. -/
theorem objective_term_char (p : Problem) (v : Asgn) (z : Int)
    (hz : z ∈ (p.positions).flatMap (fun xy => p.bricks.flatMap (fun b =>
      (List.range p.xsize).map (fun rb =>
        penAt p.xsize xy.1 rb * (v xy.1 xy.2 b rb : Int))))) :
    ∃ x, x < p.xsize ∧ ∃ y, y < p.ysize ∧ ∃ b ∈ p.bricks, ∃ rb, rb < p.xsize ∧
      z = penAt p.xsize x rb * (v x y b rb : Int) := by
  obtain ⟨xy, hxy, hz2⟩ := List.mem_flatMap.mp hz
  obtain ⟨b, hb, hz3⟩ := List.mem_flatMap.mp hz2
  obtain ⟨rb, hrb, rfl⟩ := List.mem_map.mp hz3
  obtain ⟨hx, hy⟩ := (mem_positions p xy).mp hxy
  exact ⟨xy.1, hx, xy.2, hy, b, hb, rb, List.mem_range.mp hrb, rfl⟩

/-- Every term of the built objective is nonnegative. -/
theorem objective_term_nonneg (p : Problem) (v : Asgn) (z : Int)
    (hz : z ∈ (p.positions).flatMap (fun xy => p.bricks.flatMap (fun b =>
      (List.range p.xsize).map (fun rb =>
        penAt p.xsize xy.1 rb * (v xy.1 xy.2 b rb : Int))))) :
    0 ≤ z := by
  obtain ⟨x, hx, y, hy, b, hb, rb, hrb, rfl⟩ := objective_term_char p v _ hz
  rw [penAt_eq p.xsize x rb hx hrb]
  have h1 : (0 : Int) ≤ 10 * |(rb : Int) - (x : Int)| := by positivity
  have h2 : (0 : Int) ≤ (v x y b rb : Int) := Int.natCast_nonneg _
  exact mul_nonneg h1 h2

/-- C10: For every 0/1 assignment, feasible or not, the objective value is
a nonnegative multiple of `10`, and it is zero exactly when every variable
set to `1` has `x = rb`; in particular the minimisation is bounded below
by `0`, so an unbounded outcome is impossible. -/
theorem objective_nonneg_multiple_of_ten (p : Problem) (v : Asgn)
    (hbin : ∀ x ∈ List.range p.xsize, ∀ y ∈ List.range p.ysize, ∀ b ∈ p.bricks,
      ∀ rb ∈ List.range p.xsize, v x y b rb ≤ 1) :
    0 ≤ objective p v ∧ (10 : Int) ∣ objective p v ∧
      (objective p v = 0 ↔
        ∀ x ∈ List.range p.xsize, ∀ y ∈ List.range p.ysize, ∀ b ∈ p.bricks,
          ∀ rb ∈ List.range p.xsize, v x y b rb = 1 → x = rb) := by
  refine ⟨?_, ?_, ?_⟩
  · exact int_sum_nonneg _ (objective_term_nonneg p v)
  · apply int_dvd_sum
    intro z hz
    obtain ⟨x, hx, y, hy, b, hb, rb, hrb, rfl⟩ := objective_term_char p v _ hz
    rw [penAt_eq p.xsize x rb hx hrb]
    exact ⟨|(rb : Int) - (x : Int)| * (v x y b rb : Int), by ring⟩
  · unfold objective
    rw [int_sum_eq_zero_iff _ (objective_term_nonneg p v)]
    constructor
    · intro h0 x hx y hy b hb rb hrb hv1
      have hxr := List.mem_range.mp hx
      have hyr := List.mem_range.mp hy
      have hrbr := List.mem_range.mp hrb
      have hmem2 : penAt p.xsize x rb * (v x y b rb : Int)
          ∈ (p.positions).flatMap (fun xy => p.bricks.flatMap (fun b =>
            (List.range p.xsize).map (fun rb =>
              penAt p.xsize xy.1 rb * (v xy.1 xy.2 b rb : Int)))) := by
        refine List.mem_flatMap.mpr ⟨(x, y), (mem_positions p (x, y)).mpr ⟨hxr, hyr⟩, ?_⟩
        exact List.mem_flatMap.mpr ⟨b, hb, List.mem_map_of_mem _ hrb⟩
      have hterm := h0 _ hmem2
      rw [hv1, penAt_eq p.xsize x rb hxr hrbr, Nat.cast_one, mul_one] at hterm
      rcases mul_eq_zero.mp hterm with h10 | habs
      · norm_num at h10
      · have := abs_eq_zero.mp habs
        omega
    · intro hall z hz
      obtain ⟨x, hx, y, hy, b, hb, rb, hrb, rfl⟩ := objective_term_char p v _ hz
      have hble := hbin x (List.mem_range.mpr hx) y (List.mem_range.mpr hy) b hb
        rb (List.mem_range.mpr hrb)
      rcases Nat.le_one_iff_eq_zero_or_eq_one.mp hble with h0 | h1
      · rw [h0]
        simp
      · have hxr := hall x (List.mem_range.mpr hx) y (List.mem_range.mpr hy) b hb
          rb (List.mem_range.mpr hrb) h1
        subst hxr
        rw [penAt_eq p.xsize x x hx hrb]
        simp

/-- Witness for C10 at `pW1`, `vW1`. -/
theorem objective_nonneg_multiple_of_ten_witness :
    0 ≤ objective pW1 vW1 ∧ (10 : Int) ∣ objective pW1 vW1 ∧
      (objective pW1 vW1 = 0 ↔
        ∀ x ∈ List.range pW1.xsize, ∀ y ∈ List.range pW1.ysize, ∀ b ∈ pW1.bricks,
          ∀ rb ∈ List.range pW1.xsize, vW1 x y b rb = 1 → x = rb) :=
  objective_nonneg_multiple_of_ten pW1 vW1 (by decide)

/-! ### Claim C4: what can fail while building the model -/

/-- A Python dict access `v[x][y][b][rb]` on the variable tensor of cell-9:
the nested dicts are keyed by `range(XSIZE)`, `range(YSIZE)`, `bricks` and
`range(XSIZE)`; a missing key raises `KeyError`. -/
def accessV (p : Problem) (x y : Nat) (b : String) (rb : Nat) : Except String Unit :=
  if x < p.xsize ∧ y < p.ysize ∧ b ∈ p.bricks ∧ rb < p.xsize then Except.ok ()
  else Except.error "KeyError"

/-- A Python dict access `penalties[(x, rb)]` (cell-16). -/
def accessPen (p : Problem) (x rb : Nat) : Except String Unit :=
  if (List.lookup (x, rb) (penEntries p.xsize)).isSome then Except.ok ()
  else Except.error "KeyError"

/-- Sequencing of fallible steps: the first error aborts the run. -/
def firstErr : List (Except String Unit) → Except String Unit
  | [] => Except.ok ()
  | Except.ok _ :: rest => firstErr rest
  | Except.error e :: _ => Except.error e

/-- All dict accesses performed by cells 16-25 while building the model,
in program order: the objective comprehension (a penalty and a variable
access per tuple), then the occupancy, placement, anchor-boundary and
colour-cohesion constraint loops. -/
def buildAccesses (p : Problem) : List (Except String Unit) :=
  ((p.positions).flatMap (fun xy => p.bricks.flatMap (fun b =>
    (List.range p.xsize).flatMap (fun rb =>
      [accessPen p xy.1 rb, accessV p xy.1 xy.2 b rb]))))
  ++ ((p.positions).flatMap (fun xy => p.bricks.flatMap (fun b =>
    (List.range p.xsize).map (fun rb => accessV p xy.1 xy.2 b rb))))
  ++ (p.bricks.flatMap (fun b => (p.positions).flatMap (fun xy =>
    (List.range p.xsize).map (fun rb => accessV p xy.1 xy.2 b rb))))
  ++ ((List.range p.xsize).flatMap (fun x => (List.range p.xsize).flatMap (fun rb =>
    if x > rb then
      (List.range p.ysize).flatMap (fun y => p.bricks.map (fun b => accessV p x y b rb))
    else [])))
  ++ (p.pairs.flatMap (fun bp => (List.range p.xsize).flatMap (fun rb =>
    ((p.positions).map (fun xy => accessV p xy.1 xy.2 bp.1 rb))
      ++ ((p.positions).map (fun xy => accessV p xy.1 xy.2 bp.2 rb)))))

/-- Model building as observed through its fallible dict accesses. -/
def build (p : Problem) : Except String Unit := firstErr (buildAccesses p)

/-- The scan succeeds exactly when every step does. -/
theorem firstErr_ok_iff (l : List (Except String Unit)) :
    firstErr l = Except.ok () ↔ ∀ e ∈ l, e = Except.ok () := by
  induction l with
  | nil => simp [firstErr]
  | cons a t ih =>
      cases a with
      | ok u =>
          cases u
          simp [firstErr, ih]
      | error e => simp [firstErr]

/-- The scan of ok-or-KeyError steps is ok or KeyError. -/
theorem firstErr_ok_or_keyerror (l : List (Except String Unit))
    (h : ∀ e ∈ l, e = Except.ok () ∨ e = Except.error "KeyError") :
    firstErr l = Except.ok () ∨ firstErr l = Except.error "KeyError" := by
  induction l with
  | nil => exact Or.inl rfl
  | cons a t ih =>
      rcases h a (List.mem_cons_self _ _) with rfl | rfl
      · exact ih (fun e he => h e (List.mem_cons_of_mem _ he))
      · exact Or.inr rfl

/-- Every variable access is ok or a KeyError. -/
theorem accessV_shape (p : Problem) (x y : Nat) (b : String) (rb : Nat) :
    accessV p x y b rb = Except.ok () ∨ accessV p x y b rb = Except.error "KeyError" := by
  unfold accessV
  split
  · exact Or.inl rfl
  · exact Or.inr rfl

/-- Every penalty access is ok or a KeyError. -/
theorem accessPen_shape (p : Problem) (x rb : Nat) :
    accessPen p x rb = Except.ok () ∨ accessPen p x rb = Except.error "KeyError" := by
  unfold accessPen
  split
  · exact Or.inl rfl
  · exact Or.inr rfl

/-- A successful variable access means the brick key exists. -/
theorem accessV_ok_mem (p : Problem) (x y : Nat) (b : String) (rb : Nat)
    (h : accessV p x y b rb = Except.ok ()) : b ∈ p.bricks := by
  unfold accessV at h
  split at h
  · next hc => exact hc.2.2.1
  · simp at h

/-- A variable access with in-range coordinates and a known brick is ok. -/
theorem accessV_ok_of (p : Problem) (x y : Nat) (b : String) (rb : Nat)
    (hx : x < p.xsize) (hy : y < p.ysize) (hb : b ∈ p.bricks) (hrb : rb < p.xsize) :
    accessV p x y b rb = Except.ok () := by
  unfold accessV
  rw [if_pos ⟨hx, hy, hb, hrb⟩]

/-- An in-range penalty access is ok. -/
theorem accessPen_ok_of (p : Problem) (x rb : Nat)
    (hx : x < p.xsize) (hrb : rb < p.xsize) :
    accessPen p x rb = Except.ok () := by
  unfold accessPen
  rw [if_pos]
  rw [penEntries_lookup p.xsize x rb hx hrb]
  rfl

/-- Every build access is a variable access or a penalty access. -/
theorem mem_buildAccesses_shape (p : Problem) (e : Except String Unit)
    (he : e ∈ buildAccesses p) :
    (∃ x y b rb, e = accessV p x y b rb) ∨ (∃ x rb, e = accessPen p x rb) := by
  unfold buildAccesses at he
  rcases List.mem_append.mp he with he | he5
  rcases List.mem_append.mp he with he | he4
  rcases List.mem_append.mp he with he | he3
  rcases List.mem_append.mp he with he1 | he2
  · obtain ⟨xy, _, he⟩ := List.mem_flatMap.mp he1
    obtain ⟨b, _, he⟩ := List.mem_flatMap.mp he
    obtain ⟨rb, _, he⟩ := List.mem_flatMap.mp he
    rcases List.mem_cons.mp he with rfl | he
    · exact Or.inr ⟨xy.1, rb, rfl⟩
    rcases List.mem_cons.mp he with rfl | he
    · exact Or.inl ⟨xy.1, xy.2, b, rb, rfl⟩
    · cases he
  · obtain ⟨xy, _, he⟩ := List.mem_flatMap.mp he2
    obtain ⟨b, _, he⟩ := List.mem_flatMap.mp he
    obtain ⟨rb, _, rfl⟩ := List.mem_map.mp he
    exact Or.inl ⟨xy.1, xy.2, b, rb, rfl⟩
  · obtain ⟨b, _, he⟩ := List.mem_flatMap.mp he3
    obtain ⟨xy, _, he⟩ := List.mem_flatMap.mp he
    obtain ⟨rb, _, rfl⟩ := List.mem_map.mp he
    exact Or.inl ⟨xy.1, xy.2, b, rb, rfl⟩
  · obtain ⟨x, _, he⟩ := List.mem_flatMap.mp he4
    obtain ⟨rb, _, he⟩ := List.mem_flatMap.mp he
    by_cases hgt : x > rb
    · rw [if_pos hgt] at he
      obtain ⟨y, _, he⟩ := List.mem_flatMap.mp he
      obtain ⟨b, _, rfl⟩ := List.mem_map.mp he
      exact Or.inl ⟨x, y, b, rb, rfl⟩
    · rw [if_neg hgt] at he
      cases he
  · obtain ⟨bp, _, he⟩ := List.mem_flatMap.mp he5
    obtain ⟨rb, _, he⟩ := List.mem_flatMap.mp he
    rcases List.mem_append.mp he with he | he
    · obtain ⟨xy, _, rfl⟩ := List.mem_map.mp he
      exact Or.inl ⟨xy.1, xy.2, bp.1, rb, rfl⟩
    · obtain ⟨xy, _, rfl⟩ := List.mem_map.mp he
      exact Or.inl ⟨xy.1, xy.2, bp.2, rb, rfl⟩

/-- Success of every build access is exactly: each declared pair names
known bricks, whenever the grid is nonempty. -/
theorem buildAccesses_all_ok_iff (p : Problem) :
    (∀ e ∈ buildAccesses p, e = Except.ok ()) ↔
      (0 < p.xsize → 0 < p.ysize →
        ∀ bp ∈ p.pairs, bp.1 ∈ p.bricks ∧ bp.2 ∈ p.bricks) := by
  constructor
  · intro hall hx hy bp hbp
    have hpos : ((0 : Nat), (0 : Nat)) ∈ p.positions := (mem_positions p (0, 0)).mpr ⟨hx, hy⟩
    have hrb0 : (0 : Nat) ∈ List.range p.xsize := List.mem_range.mpr hx
    constructor
    · apply accessV_ok_mem p 0 0 bp.1 0
      apply hall
      unfold buildAccesses
      refine List.mem_append.mpr (Or.inr ?_)
      refine List.mem_flatMap.mpr ⟨bp, hbp, ?_⟩
      refine List.mem_flatMap.mpr ⟨0, hrb0, ?_⟩
      refine List.mem_append.mpr (Or.inl ?_)
      exact List.mem_map_of_mem _ hpos
    · apply accessV_ok_mem p 0 0 bp.2 0
      apply hall
      unfold buildAccesses
      refine List.mem_append.mpr (Or.inr ?_)
      refine List.mem_flatMap.mpr ⟨bp, hbp, ?_⟩
      refine List.mem_flatMap.mpr ⟨0, hrb0, ?_⟩
      refine List.mem_append.mpr (Or.inr ?_)
      exact List.mem_map_of_mem _ hpos
  · intro hcond e he
    unfold buildAccesses at he
    rcases List.mem_append.mp he with he | he5
    rcases List.mem_append.mp he with he | he4
    rcases List.mem_append.mp he with he | he3
    rcases List.mem_append.mp he with he1 | he2
    · obtain ⟨xy, hxy, he⟩ := List.mem_flatMap.mp he1
      obtain ⟨b, hb, he⟩ := List.mem_flatMap.mp he
      obtain ⟨rb, hrb, he⟩ := List.mem_flatMap.mp he
      obtain ⟨hx, hy⟩ := (mem_positions p xy).mp hxy
      rcases List.mem_cons.mp he with rfl | he
      · exact accessPen_ok_of p xy.1 rb hx (List.mem_range.mp hrb)
      rcases List.mem_cons.mp he with rfl | he
      · exact accessV_ok_of p xy.1 xy.2 b rb hx hy hb (List.mem_range.mp hrb)
      · cases he
    · obtain ⟨xy, hxy, he⟩ := List.mem_flatMap.mp he2
      obtain ⟨b, hb, he⟩ := List.mem_flatMap.mp he
      obtain ⟨rb, hrb, rfl⟩ := List.mem_map.mp he
      obtain ⟨hx, hy⟩ := (mem_positions p xy).mp hxy
      exact accessV_ok_of p xy.1 xy.2 b rb hx hy hb (List.mem_range.mp hrb)
    · obtain ⟨b, hb, he⟩ := List.mem_flatMap.mp he3
      obtain ⟨xy, hxy, he⟩ := List.mem_flatMap.mp he
      obtain ⟨rb, hrb, rfl⟩ := List.mem_map.mp he
      obtain ⟨hx, hy⟩ := (mem_positions p xy).mp hxy
      exact accessV_ok_of p xy.1 xy.2 b rb hx hy hb (List.mem_range.mp hrb)
    · obtain ⟨x, hx, he⟩ := List.mem_flatMap.mp he4
      obtain ⟨rb, hrb, he⟩ := List.mem_flatMap.mp he
      by_cases hgt : x > rb
      · rw [if_pos hgt] at he
        obtain ⟨y, hy, he⟩ := List.mem_flatMap.mp he
        obtain ⟨b, hb, rfl⟩ := List.mem_map.mp he
        exact accessV_ok_of p x y b rb (List.mem_range.mp hx) (List.mem_range.mp hy)
          hb (List.mem_range.mp hrb)
      · rw [if_neg hgt] at he
        cases he
    · obtain ⟨bp, hbp, he⟩ := List.mem_flatMap.mp he5
      obtain ⟨rb, hrb, he⟩ := List.mem_flatMap.mp he
      rcases List.mem_append.mp he with he | he
      · obtain ⟨xy, hxy, rfl⟩ := List.mem_map.mp he
        obtain ⟨hx, hy⟩ := (mem_positions p xy).mp hxy
        have h1 : bp.1 ∈ p.bricks := (hcond (by omega) (by omega) bp hbp).1
        exact accessV_ok_of p xy.1 xy.2 bp.1 rb hx hy h1 (List.mem_range.mp hrb)
      · obtain ⟨xy, hxy, rfl⟩ := List.mem_map.mp he
        obtain ⟨hx, hy⟩ := (mem_positions p xy).mp hxy
        have h2 : bp.2 ∈ p.bricks := (hcond (by omega) (by omega) bp hbp).2
        exact accessV_ok_of p xy.1 xy.2 bp.2 rb hx hy h2 (List.mem_range.mp hrb)

/-- C4 (amended): building never reports an `InvalidModel` error.  The
only failure the build loops can hit is a `KeyError`, raised exactly when
some declared pair references a brick id missing from `bricks` and the
grid is nonempty; duplicate brick ids and `XSIZE*YSIZE < len(bricks)`
cause no build failure at all. -/
theorem build_failure_characterization (p : Problem) :
    (build p = Except.ok () ∨ build p = Except.error "KeyError") ∧
    (build p = Except.ok () ↔
      (0 < p.xsize → 0 < p.ysize →
        ∀ bp ∈ p.pairs, bp.1 ∈ p.bricks ∧ bp.2 ∈ p.bricks)) := by
  constructor
  · apply firstErr_ok_or_keyerror
    intro e he
    rcases mem_buildAccesses_shape p e he with ⟨x, y, b, rb, rfl⟩ | ⟨x, rb, rfl⟩
    · exact accessV_shape p x y b rb
    · exact accessPen_shape p x rb
  · rw [show build p = firstErr (buildAccesses p) from rfl, firstErr_ok_iff]
    exact buildAccesses_all_ok_iff p

/-- A malformed description the builder accepts: duplicate brick ids and
too little capacity. -/
def pDup : Problem := ⟨1, 1, ["a", "a"], []⟩

/-- A description whose pair references an unknown brick id. -/
def pUnk : Problem := ⟨1, 1, ["a"], [("a", "zz")]⟩

/-- C4 counterexample: `pDup` is malformed in two of the claimed senses
(duplicate bricks, `XSIZE*YSIZE < len(bricks)`) yet building succeeds
without any error, and an unknown pair id raises a `KeyError`, not an
`InvalidModel` error. -/
theorem build_accepts_malformed :
    (pDup.xsize * pDup.ysize < pDup.bricks.length ∧ ¬ pDup.bricks.Nodup ∧
      build pDup = Except.ok ()) ∧
    build pUnk = Except.error "KeyError" :=
  ⟨⟨by decide, by decide, rfl⟩, rfl⟩

/-- Witness for C4 (amended) at the notebook instance `P0`. -/
theorem build_failure_characterization_witness :
    (build P0 = Except.ok () ∨ build P0 = Except.error "KeyError") ∧
    (build P0 = Except.ok () ↔
      (0 < P0.xsize → 0 < P0.ysize →
        ∀ bp ∈ P0.pairs, bp.1 ∈ P0.bricks ∧ bp.2 ∈ P0.bricks)) :=
  build_failure_characterization P0

/-! ### The result display loop (cell-30) -/

/-- The text accumulated for one cell: for `b in bricks`, `rb in
range(XSIZE)`, append `'{}[{}]'.format(b, rb)` whenever the solved value
is `1`. -/
def cellStr (v : Asgn) (x y : Nat) : String :=
  String.join (bricks.flatMap (fun b => (List.range XSIZE).map (fun rb =>
    if v x y b rb = 1 then b ++ "[" ++ toString rb ++ "]" else "")))

/-- One printed row: cells in ascending `x`, each followed by `'\t'`. -/
def rowStr (v : Asgn) (y : Nat) : String :=
  String.join ((List.range XSIZE).map (fun x => cellStr v x y ++ "\t"))

/-- The printed lines, one per `y` in ascending order. -/
def outputLines (v : Asgn) : List String :=
  (List.range YSIZE).map (fun y => rowStr v y)

/-- The `(b, rb)` scan order of the cell loop. -/
def cellTuples : List (String × Nat) :=
  bricks.flatMap (fun b => (List.range XSIZE).map (fun rb => (b, rb)))

/-- Folding string concatenation from any accumulator. -/
theorem foldl_append_acc (l : List String) (s : String) :
    List.foldl (fun acc t => acc ++ t) s l
      = s ++ List.foldl (fun acc t => acc ++ t) "" l := by
  induction l generalizing s with
  | nil => simp
  | cons a t ih =>
      simp only [List.foldl_cons]
      rw [ih (s ++ a), ih ("" ++ a)]
      simp [String.append_assoc]

/-- Joining a cons is prepending the head. -/
theorem join_cons (s : String) (l : List String) :
    String.join (s :: l) = s ++ String.join l := by
  unfold String.join
  simp only [List.foldl_cons]
  rw [foldl_append_acc l ("" ++ s)]
  simp

/-- Joining conditional pieces is joining the selected pieces. -/
theorem join_map_ite {α : Type} (l : List α) (P : α → Prop) [DecidablePred P]
    (r : α → String) :
    String.join (l.map (fun a => if P a then r a else ""))
      = String.join ((l.filter (fun a => decide (P a))).map r) := by
  induction l with
  | nil => rfl
  | cons a t ih =>
      by_cases h : P a
      · simp [List.filter_cons, h, join_cons, ih]
      · simp [List.filter_cons, h, join_cons, ih]

/-- The cell text is the concatenation, in scan order, of the renderings
of all `(b, rb)` whose variable is `1`. -/
theorem cellStr_eq_filter (v : Asgn) (x y : Nat) :
    cellStr v x y = String.join
      ((cellTuples.filter (fun brb => decide (v x y brb.1 brb.2 = 1))).map
        (fun brb => brb.1 ++ "[" ++ toString brb.2 ++ "]")) := by
  have hlist : (bricks.flatMap (fun b => (List.range XSIZE).map (fun rb =>
      if v x y b rb = 1 then b ++ "[" ++ toString rb ++ "]" else "")))
      = cellTuples.map (fun brb =>
          if v x y brb.1 brb.2 = 1 then brb.1 ++ "[" ++ toString brb.2 ++ "]" else "") := by
    unfold cellTuples
    rw [List.map_flatMap]
    simp [List.map_map, Function.comp_def]
  unfold cellStr
  rw [hlist]
  exact join_map_ite cellTuples (fun brb => v x y brb.1 brb.2 = 1) _

/-- C5 (amended): the display loop performs no defensive check.  When more
than one `(brick, rb)` variable is `1` at a cell it silently concatenates
every matching `<brick>[<rb>]` rendering into that cell's text instead of
failing: the cell text is always the join of all matching renderings in
scan order. -/
theorem extractor_concatenates_all (v : Asgn) (x y : Nat) :
    cellStr v x y = String.join
      ((cellTuples.filter (fun brb => decide (v x y brb.1 brb.2 = 1))).map
        (fun brb => brb.1 ++ "[" ++ toString brb.2 ++ "]")) :=
  cellStr_eq_filter v x y

/-- An assignment setting two variables at cell `(0,0)`. -/
def vBad : Asgn := fun x y b rb =>
  if x = 0 ∧ y = 0 ∧ (b = "a1" ∨ b = "a2") ∧ rb = 0 then 1 else 0

/-- C5 counterexample: with two variables equal to `1` at cell `(0,0)` the
display loop does not fail with any error; it prints a complete grid whose
first cell holds both renderings concatenated. -/
theorem extractor_no_inconsistency_error :
    outputLines vBad = ["a1[0]a2[0]\t\t\t\t", "\t\t\t\t", "\t\t\t\t"] := by
  decide

/-- Witness for C5 (amended) at `vBad` and cell `(0,0)`. -/
theorem extractor_concatenates_all_witness :
    cellStr vBad 0 0 = String.join
      ((cellTuples.filter (fun brb => decide (vBad 0 0 brb.1 brb.2 = 1))).map
        (fun brb => brb.1 ++ "[" ++ toString brb.2 ++ "]")) :=
  extractor_concatenates_all vBad 0 0

/-- Membership in the cell scan order is a known brick and in-range `rb`. -/
theorem mem_cellTuples (brb : String × Nat) :
    brb ∈ cellTuples ↔ brb.1 ∈ bricks ∧ brb.2 < XSIZE := by
  obtain ⟨b, rb⟩ := brb
  simp only [cellTuples, List.mem_flatMap, List.mem_map, List.mem_range]
  constructor
  · rintro ⟨b1, hb1, rb1, hrb1, heq⟩
    simp only [Prod.mk.injEq] at heq
    obtain ⟨rfl, rfl⟩ := heq
    exact ⟨hb1, hrb1⟩
  · rintro ⟨hb, hrb⟩
    exact ⟨b, hb, rb, hrb, rfl⟩

/-- The cell scan order has no duplicate `(b, rb)` pair. -/
theorem cellTuples_nodup : cellTuples.Nodup := by decide

/-- Filtering with a predicate holding at exactly one member. -/
theorem filter_eq_single {α : Type} (l : List α) (P : α → Bool) (a : α)
    (hnd : l.Nodup) (ha : a ∈ l) (hPa : P a = true)
    (hother : ∀ c ∈ l, c ≠ a → P c = false) :
    l.filter P = [a] := by
  induction l with
  | nil => cases ha
  | cons c t ih =>
      rcases List.mem_cons.mp ha with rfl | hat
      · simp only [List.filter_cons, hPa, if_true]
        have hnil : t.filter P = [] := by
          rw [List.filter_eq_nil_iff]
          intro d hd
          have hne : d ≠ a := by
            intro e
            subst e
            exact (List.nodup_cons.mp hnd).1 hd
          simp [hother d (List.mem_cons_of_mem _ hd) hne]
        rw [hnil]
      · have hne : c ≠ a := by
          intro e
          subst e
          exact (List.nodup_cons.mp hnd).1 hat
        have hPc := hother c (List.mem_cons_self _ _) hne
        simp only [List.filter_cons, hPc, if_false]
        exact ih (List.nodup_cons.mp hnd).2 hat
          (fun d hd hdne => hother d (List.mem_cons_of_mem _ hd) hdne)

/-- The occupancy sum at the notebook instance is the sum over the cell
scan order. -/
theorem occSum_P0_eq (v : Asgn) (x y : Nat) :
    occSum P0 v x y = (cellTuples.map (fun brb => v x y brb.1 brb.2)).sum := by
  unfold occSum
  have hlist : P0.bricks.flatMap (fun b =>
      (List.range P0.xsize).map (fun rb => v x y b rb))
      = cellTuples.map (fun brb => v x y brb.1 brb.2) := by
    unfold cellTuples
    rw [List.map_flatMap]
    simp only [List.map_map, Function.comp_def]
    rfl
  rw [hlist]

/-- C8: For every solved assignment (at most one set variable per cell),
the printed output has one line per row in ascending `y`; each line lists
the XSIZE cell texts in ascending `x` separated by tabs (each cell
followed by its tab); a cell with no variable equal to `1` is blank, and a
cell whose variable `v[x][y][b][rb]` is `1` reads `<b>[<rb>]`. -/
theorem display_grid_format (v : Asgn)
    (hocc : ∀ x ∈ List.range XSIZE, ∀ y ∈ List.range YSIZE, occSum P0 v x y ≤ 1) :
    outputLines v = (List.range YSIZE).map (fun y =>
        String.intercalate "\t" ((List.range XSIZE).map (fun x => cellStr v x y)) ++ "\t") ∧
    (∀ x ∈ List.range XSIZE, ∀ y ∈ List.range YSIZE,
      ((∀ b ∈ bricks, ∀ rb ∈ List.range XSIZE, v x y b rb ≠ 1) → cellStr v x y = "") ∧
      (∀ b ∈ bricks, ∀ rb ∈ List.range XSIZE, v x y b rb = 1 →
        cellStr v x y = b ++ "[" ++ toString rb ++ "]")) := by
  constructor
  · unfold outputLines
    apply List.map_congr_left
    intro y _
    unfold rowStr
    simp [XSIZE, List.range_succ, join_cons, String.intercalate, String.intercalate.go,
      String.append_assoc, String.join]
  · intro x hx y hy
    constructor
    · intro hnone
      rw [cellStr_eq_filter]
      have hfil : cellTuples.filter (fun brb => decide (v x y brb.1 brb.2 = 1)) = [] := by
        rw [List.filter_eq_nil_iff]
        intro brb hbrb
        obtain ⟨hb, hrb⟩ := (mem_cellTuples brb).mp hbrb
        simpa using hnone brb.1 hb brb.2 (List.mem_range.mpr hrb)
      rw [hfil]
      rfl
    · intro b hb rb hrb h1
      rw [cellStr_eq_filter]
      have hmem : (b, rb) ∈ cellTuples :=
        (mem_cellTuples (b, rb)).mpr ⟨hb, List.mem_range.mp hrb⟩
      have hsumle := hocc x hx y hy
      rw [occSum_P0_eq] at hsumle
      have hmemval : v x y b rb ∈ cellTuples.map (fun brb => v x y brb.1 brb.2) :=
        List.mem_map_of_mem _ hmem
      have hge := mem_le_sum _ _ hmemval
      have hsum1 : (cellTuples.map (fun brb => v x y brb.1 brb.2)).sum = 1 := by omega
      obtain ⟨a0, ha0, ha0v, hrest⟩ := sum_eq_one_unique _ _ hsum1
      have haeq : a0 = (b, rb) := by
        by_contra hne
        have h0 := hrest (b, rb) hmem (fun hh => hne hh.symm)
        simp only [] at h0
        omega
      subst haeq
      have hfil : cellTuples.filter (fun brb => decide (v x y brb.1 brb.2 = 1)) = [(b, rb)] := by
        apply filter_eq_single cellTuples _ (b, rb) cellTuples_nodup hmem
        · simpa using h1
        · intro c hc hcne
          have h0 := hrest c hc hcne
          simp [h0]
      rw [hfil]
      rw [List.map_cons, List.map_nil, join_cons]
      rw [show String.join ([] : List String) = "" from rfl, String.append_empty]

/-- The assignment placing only `a1` at `(0,0)` with anchor `0` on the
notebook grid. -/
def vOne : Asgn := fun x y b rb =>
  if x = 0 ∧ y = 0 ∧ b = "a1" ∧ rb = 0 then 1 else 0

/-- Witness for C8 at `vOne`. -/
theorem display_grid_format_witness :
    outputLines vOne = (List.range YSIZE).map (fun y =>
        String.intercalate "\t" ((List.range XSIZE).map (fun x => cellStr vOne x y)) ++ "\t") ∧
    (∀ x ∈ List.range XSIZE, ∀ y ∈ List.range YSIZE,
      ((∀ b ∈ bricks, ∀ rb ∈ List.range XSIZE, vOne x y b rb ≠ 1) → cellStr vOne x y = "") ∧
      (∀ b ∈ bricks, ∀ rb ∈ List.range XSIZE, vOne x y b rb = 1 →
        cellStr vOne x y = b ++ "[" ++ toString rb ++ "]")) :=
  display_grid_format vOne (by decide)

/-! ### Claim C9: the pairs list covers exactly the same-prefix pairs -/

/-- C9: In the concrete notebook data, the pairs list of cell-25 is
exactly the set of all unordered pairs of distinct bricks sharing the
same letter prefix: the 3 pairs among `a1,a2,a3`, the pair `b1,b2`, the 6
pairs among `c1,c2,c3,c4`, the pair `d1,d2`, and no pair involving `e1`;
hence colour cohesion is declared directly between every two same-prefix
bricks, not merely transitively. -/
theorem pairs_exactly_same_prefix :
    (∀ bp ∈ pairs, bp.1 ∈ bricks ∧ bp.2 ∈ bricks) ∧
    pairs.length = 11 ∧
    (pairs.filter (fun bp => decide (bp.1.data.take 1 = ['a']))).length = 3 ∧
    (pairs.filter (fun bp => decide (bp.1.data.take 1 = ['b']))).length = 1 ∧
    (pairs.filter (fun bp => decide (bp.1.data.take 1 = ['c']))).length = 6 ∧
    (pairs.filter (fun bp => decide (bp.1.data.take 1 = ['d']))).length = 1 ∧
    (∀ bp ∈ pairs, bp.1 ≠ "e1" ∧ bp.2 ≠ "e1") ∧
    (∀ b1 ∈ bricks, ∀ b2 ∈ bricks,
      (((b1, b2) ∈ pairs ∨ (b2, b1) ∈ pairs) ↔
        (b1 ≠ b2 ∧ b1.data.take 1 = b2.data.take 1))) := by
  decide
